import Mathlib

/-
Verification development for the separate-chaining hash map of
src/program4/src/hash_map.hpp (template class ics::HashMap<KEY, T, thash>).

The template is instantiated at KEY = int and T = int, both modelled as
Lean `Int`; a default-constructed KEY/T is 0.  C++ `int` hash values are
32-bit two's-complement integers: overflow matters only in `abs`, whose
argument `INT_MIN` has no representable absolute value (`abs(INT_MIN)`
yields `INT_MIN` on two's-complement hardware), so hash values are
modelled as `Int` together with an explicit wrap in `absC`.  C++ `%` on
int is truncated remainder, modelled by `Int.tmod`.  `double` values that
occur (the load threshold, and the integer-valued ratio the source
computes) are small integers or simple fractions, exactly representable
in binary floating point, so they are modelled as `ℚ`.

Functions whose bodies are present in the source (the two validating
constructors, `empty`, `size`, `has_key`, `has_value`, `hash_compress`,
`find_key`, `ensure_load_threshold`, the `Iterator` constructor's
initializer list) are translated from that source.  Functions whose
bodies are empty in the source (`put`, `erase`, `clear`, `operator []`,
iterator `advance`/`erase`/`operator ++`) are modelled from the design
specification; each such definition carries a doc comment starting
`Modelled from the spec:`.
-/

/-- Smallest 32-bit two's-complement int, the one value whose C `abs` overflows. -/
def INTMIN : Int := -2147483648

/-- C `abs` on a 32-bit int: correct absolute value everywhere except at
`INT_MIN`, where the result overflows and (on two's-complement hardware)
wraps back to `INT_MIN` itself. -/
def absC (x : Int) : Int := if x = INTMIN then INTMIN else (x.natAbs : Int)

/-- Compression of a hash value to a bin index at a given bin count:
`abs(hash(key)) % bins` with C++ truncated `%` (source line 343). -/
def compressAt (hf : Int → Int) (bins : Nat) (k : Int) : Int :=
  (absC (hf k)).tmod (bins : Int)

/-- The map state at the level the public queries see: `bins`, `used`,
`mod_count` and `load_threshold` are the members declared at source lines
127-132; `chains` holds, per allocated bin, the list of real entries in
physical order (head of the C++ list first).  The trailer node that ends
every physical bin list (a default-constructed `Entry`, i.e. `(0, 0)`) is
not stored in `chains`; the scan functions below append it explicitly,
exactly where the C++ traversal meets it. -/
structure HM where
  hash : Int → Int
  load_threshold : ℚ
  bins : Nat
  chains : List (List (Int × Int))
  used : Nat
  mod_count : Nat

/-- Bin index of a key under the map's current bin count (source lines 334-344). -/
def hash_compress (m : HM) (k : Int) : Int :=
  compressAt m.hash m.bins k

/-- Physical scan of one bin's list for a key: the C++ loop
`for (node = map[bin]; node != nullptr; node = node->next)` visits every
real entry and then the trailer node `(0, 0)` before stopping
(source lines 354-357). -/
def scanChain (l : List (Int × Int)) (k : Int) : Option (Int × Int) :=
  (l ++ [((0 : Int), (0 : Int))]).find? (fun e => e.1 = k)

/-- `find_key` (source lines 347-359): scans the bin at index `bin`.
Reading `map[bin]` for an index outside `[0, bins)` is out of bounds in
the C++ (undefined behavior); the model returns `none` there. -/
def find_key (m : HM) (bin : Int) (k : Int) : Option (Int × Int) :=
  if 0 ≤ bin ∧ bin < (m.bins : Int) then
    scanChain (m.chains.getD bin.toNat []) k
  else none

/-- `has_key` (source lines 227-230): `find_key(hash_compress(key), key)`
converted to bool. -/
def has_key (m : HM) (k : Int) : Bool :=
  (find_key m (hash_compress m k) k).isSome

/-- `has_value` (source lines 233-244): scans every node of every bin in
`[0, bins)`, trailer nodes included, comparing stored values. -/
def has_value (m : HM) (v : Int) : Bool :=
  (List.range m.bins).any
    (fun i => ((m.chains.getD i []) ++ [((0 : Int), (0 : Int))]).any (fun e => e.2 = v))

/-- The error kinds the component raises (ics_exceptions; spec section 7). -/
inductive MapErr where
  | templateFunctionError (msg : String)
  | notFoundError (key : Int)
  | concurrentModificationError
  | invalidCursorError
deriving DecidableEq

/-- What a validating constructor produces: the resolved hash-function
pointer (function pointers are modelled by numeric identity, since the
source compares them with `==` and `!=`), the stored load threshold, the
`bins` member, and the allocated bin array (each allocated bin holding
only its trailer, i.e. an empty entry list). -/
structure CtorHM where
  hashPtr : Nat
  load_threshold : ℚ
  bins : Nat
  alloc : List (List (Int × Int))
deriving DecidableEq

deriving instance DecidableEq for Except

/-- The default constructor (source lines 159-172): resolves
`hash = thash != nullptr ? thash : chash`, throws
`TemplateFunctionError` if the resolved pointer is null, then throws if
both were supplied and differ; on success allocates `bins` (= 1, the
member default) trailer-only bins. -/
def hmInit (thash chash : Option Nat) (lt : ℚ) : Except MapErr CtorHM :=
  let h := if thash.isSome then thash else chash
  match h with
  | none => .error (.templateFunctionError "HashMap::default constructor nothing specified")
  | some hp =>
    if thash.isSome ∧ chash.isSome ∧ thash ≠ chash then
      .error (.templateFunctionError "HashMap::default constructor both specified and different")
    else
      .ok ⟨hp, lt, 1, [[]]⟩

/-- The `initial_bins` constructor (source lines 175-189): same hash
validation, then allocates `initial_bins` trailer-only bins — but the
body never assigns the `bins` member, which keeps its declared default
of 1 (source line 130). -/
def hmInitBins (initial_bins : Nat) (thash chash : Option Nat) (lt : ℚ) :
    Except MapErr CtorHM :=
  let h := if thash.isSome then thash else chash
  match h with
  | none => .error (.templateFunctionError "HashMap::default constructor nothing specified")
  | some hp =>
    if thash.isSome ∧ chash.isSome ∧ thash ≠ chash then
      .error (.templateFunctionError "HashMap::default constructor both specified and different")
    else
      .ok ⟨hp, lt, 1, List.replicate initial_bins []⟩

/-- A freshly default-constructed map, after successful hash validation,
with `hf` the resolved hash function: one bin holding only its trailer,
`used = 0`, `mod_count = 0` (source lines 159-172 and member defaults at
lines 130-132). -/
def mkDefault (hf : Int → Int) (lt : ℚ) : HM :=
  ⟨hf, lt, 1, [[]], 0, 0⟩

/-- All real entries of the map, bin by bin (trailers excluded). -/
def allEntries (m : HM) : List (Int × Int) :=
  m.chains.flatten

/-- Exact test for `used / bins > load_threshold` over the rationals,
written in cross-multiplied integer form (`t < u / b  ↔  t.num * b <
u * t.den` for `b > 0`) so that it is kernel-computable; the source's
`double` arithmetic is exact on every value these claims exercise. -/
def ratioExceeds (u b : Nat) (t : ℚ) : Bool :=
  t.num * (b : Int) < (u : Int) * (t.den : Int)

/-- Modelled from the spec: the Rehasher (spec section 4.3), whose source
`ensure_load_threshold` body is ill-formed and non-terminating (see the
pointer-level embedding below).  Trigger: `used / bins > load_threshold`
computed exactly; resize: new bin count `2 × bins`, every existing entry
moved to the bucket its key compresses to under the new bin count,
`mod_count` bumped once for the whole resize (spec section 4.3 step 5). -/
def rehasherSpec (m : HM) : HM :=
  if ratioExceeds m.used m.bins m.load_threshold then
    let nb := 2 * m.bins
    { m with
      bins := nb
      chains := (List.range nb).map
        (fun (j : Nat) => (allEntries m).filter (fun e => compressAt m.hash nb e.1 = (j : Int)))
      mod_count := m.mod_count + 1 }
  else m

/-- Bin index used by the modelled commands: `hash_compress` clamped to a
`Nat` (meaningful whenever the compressed index is nonnegative, i.e.
whenever the key's hash is not `INT_MIN`). -/
def bucketIdx (m : HM) (k : Int) : Nat :=
  (hash_compress m k).toNat

/-- Replace, in place, the value stored under `k` in one chain. -/
def replaceVal (l : List (Int × Int)) (k v : Int) : List (Int × Int) :=
  l.map (fun e => if e.1 = k then (e.1, v) else e)

/-- Modelled from the spec: `put` / `insert_or_update` (spec sections 4.2
and 4.4), whose source body is empty (source lines 256-258).  If the key
is found in its bucket the value is replaced in place and the previous
value returned, without touching `used`, `mod_count` or the Rehasher;
otherwise a new entry is prepended to the bucket, `used` and `mod_count`
are incremented, the Rehasher check runs, and the newly inserted value is
returned. -/
def put (m : HM) (k v : Int) : Int × HM :=
  let i := bucketIdx m k
  let c := m.chains.getD i []
  match c.find? (fun e => e.1 = k) with
  | some e => (e.2, { m with chains := m.chains.set i (replaceVal c k v) })
  | none =>
      (v, rehasherSpec
        { m with
          chains := m.chains.set i ((k, v) :: c)
          used := m.used + 1
          mod_count := m.mod_count + 1 })

/-- Modelled from the spec: `erase` / `remove` (spec sections 4.2 and
4.4), whose source body is empty (source lines 261-263).  Unlinks the
matching entry from its chain, decrements `used`, increments `mod_count`
and returns the removed value; fails with `NotFoundError` identifying the
missing key when the key is absent. -/
def erase (m : HM) (k : Int) : Except MapErr (Int × HM) :=
  let i := bucketIdx m k
  let c := m.chains.getD i []
  match c.find? (fun e => e.1 = k) with
  | some e =>
      .ok (e.2,
        { m with
          chains := m.chains.set i (c.filter (fun e2 => ¬ e2.1 = k))
          used := m.used - 1
          mod_count := m.mod_count + 1 })
  | none => .error (.notFoundError k)

/-- The map `put` produces when the key was already present: its value
replaced in place, everything else untouched. -/
def putReplaced (m : HM) (k v : Int) : HM :=
  { m with
    chains := m.chains.set (bucketIdx m k)
      (replaceVal (m.chains.getD (bucketIdx m k) []) k v) }

/-- The map `put` builds, before the Rehasher check, when the key was
absent: the new entry prepended to its bucket, `used` and `mod_count`
incremented. -/
def putInserted (m : HM) (k v : Int) : HM :=
  { m with
    chains := m.chains.set (bucketIdx m k) ((k, v) :: m.chains.getD (bucketIdx m k) [])
    used := m.used + 1
    mod_count := m.mod_count + 1 }

/-- The map `erase` produces when the key was present: the matching entry
unlinked from its chain, `used` decremented, `mod_count` incremented. -/
def eraseResult (m : HM) (k : Int) : HM :=
  { m with
    chains := m.chains.set (bucketIdx m k)
      ((m.chains.getD (bucketIdx m k) []).filter (fun e2 => ¬ e2.1 = k))
    used := m.used - 1
    mod_count := m.mod_count + 1 }

/-- The map the spec-modelled Rehasher produces when it fires: bins
doubled, every entry redistributed to the bucket its key compresses to
under the new bin count, `mod_count` bumped once. -/
def rehashed (m : HM) : HM :=
  { m with
    bins := 2 * m.bins
    chains := (List.range (2 * m.bins)).map
      (fun (j : Nat) => (allEntries m).filter
        (fun e => compressAt m.hash (2 * m.bins) e.1 = (j : Int)))
    mod_count := m.mod_count + 1 }

/-- Iterator bookkeeping: `expected_mod_count` is captured from the map in
the source constructor's initializer list (source lines 446-449), and
`can_erase` defaults to `true` (source line 102); the cursor pair
`(bin, pos)` is modelled from the spec (the constructor body that should
position it is empty). -/
structure Iter where
  expected_mod_count : Nat
  bin : Nat
  pos : Nat
  can_erase : Bool
deriving DecidableEq

/-- An iterator freshly created over `m`: snapshot of `m.mod_count`
(source line 448), cursor at the start. -/
def mkIter (m : HM) : Iter :=
  ⟨m.mod_count, 0, 0, true⟩

/-- First non-empty bin at index `b` or later, if any. -/
def nextBinFrom (m : HM) (b : Nat) : Option Nat :=
  ((List.range m.bins).filter (fun j => b ≤ j ∧ m.chains.getD j [] ≠ [])).head?

/-- Modelled from the spec: iterator `advance()` / `operator ++` (spec
section 4.5), whose source body is empty (source lines 466-468).  Fails
with `ConcurrentModificationError` when the map's `mod_count` no longer
matches the iterator's captured snapshot; otherwise an advance after an
iterator-driven erase merely clears that sub-state, and a plain advance
moves to the next node in the bucket, the first node of the next
non-empty bucket, or the exhausted state (`bin = bins`). -/
def advanceIter (m : HM) (it : Iter) : Except MapErr Iter :=
  if it.expected_mod_count ≠ m.mod_count then .error .concurrentModificationError
  else if it.can_erase = false then .ok { it with can_erase := true }
  else if it.pos + 1 < (m.chains.getD it.bin []).length then
    .ok { it with pos := it.pos + 1 }
  else
    match nextBinFrom m (it.bin + 1) with
    | some b => .ok { it with bin := b, pos := 0 }
    | none => .ok { it with bin := m.bins, pos := 0 }

/-- Modelled from the spec: iterator `erase()` (spec section 4.5), whose
source body is empty (source lines 457-459).  Fails with
`ConcurrentModificationError` on a stale snapshot, with
`InvalidCursorError` when already erased-but-not-advanced or exhausted;
otherwise removes the current entry through the map (bumping `used` down
and `mod_count` up), re-snapshots `mod_count`, and enters the
erased-but-not-advanced state. -/
def eraseCurrentIter (m : HM) (it : Iter) : Except MapErr ((Int × Int) × HM × Iter) :=
  if it.expected_mod_count ≠ m.mod_count then .error .concurrentModificationError
  else if it.can_erase = false then .error .invalidCursorError
  else
    let c := m.chains.getD it.bin []
    match c.get? it.pos with
    | none => .error .invalidCursorError
    | some e =>
        let m' : HM :=
          { m with
            chains := m.chains.set it.bin (c.eraseIdx it.pos)
            used := m.used - 1
            mod_count := m.mod_count + 1 }
        .ok (e, m', { it with expected_mod_count := m'.mod_count, can_erase := false })

/-
Pointer-level embedding of `ensure_load_threshold` (source lines 382-421).

The source body is translated node by node.  Two slips in it are modelled
as follows: `T prev_bin = bins;` declares the saved bin count with the
value type `T` (well-formed only at `T = int`, the instantiation used
here), and `map = new LN[bins];` is ill-formed as written (it assigns an
`LN*` to the `LN**` member); the evidently intended allocation
`new LN*[bins]` is modelled, which is the reading under which the rest of
the body type-checks.  Linked nodes are explicit heap cells addressed by
`Nat` identifiers, since the relinking loop's behavior depends on pointer
aliasing: the loop advances through `prev_node = prev_node->next` after
having just rewritten `prev_node->next` to point into the new table.
-/

/-- One linked node `LN`: its entry and its `next` pointer (source lines 117-125). -/
structure PNode where
  key : Int
  val : Int
  next : Option Nat
deriving DecidableEq

/-- Heap read: the node a pointer designates (reads of unallocated
identifiers never occur on the executions analysed; they default to a
trailer-shaped node). -/
def hGet (h : List (Nat × PNode)) (i : Nat) : PNode :=
  ((h.find? (fun p => p.1 = i)).map Prod.snd).getD ⟨0, 0, none⟩

/-- Heap write, in place. -/
def hSet (h : List (Nat × PNode)) (i : Nat) (n : PNode) : List (Nat × PNode) :=
  h.map (fun p => if p.1 = i then (i, n) else p)

/-- The hash map's representation as the resize code manipulates it:
`table` is the bin array (`map`), each entry the pointer to the head node
of that bin's list; `freshId` feeds allocation of new nodes. -/
structure PState where
  bins : Nat
  table : List Nat
  heap : List (Nat × PNode)
  freshId : Nat
  mod_count : Nat
deriving DecidableEq

/-- One iteration of the relinking loop body (source lines 408-417) at
`prev_node = some id`, under the already-updated bin count `st.bins`:
`hash_bin = hash_compress(prev_node->value.first)`, then
`copying->next = map[hash_bin]; map[hash_bin] = copying;`, and the loop
increment reads `prev_node->next` after that write, so the returned next
pointer is the overwritten one — the old head of the target bin. -/
def relinkStep (hf : Int → Int) (st : PState) (id : Nat) : PState × Option Nat :=
  let nd := hGet st.heap id
  let hb := (compressAt hf st.bins nd.key).toNat
  let oldHead := st.table.getD hb 0
  ({ st with
      heap := hSet st.heap id ⟨nd.key, nd.val, some oldHead⟩
      table := st.table.set hb id },
   some oldHead)

/-- The inner relinking loop (source lines 408-417), fuel-indexed:
`none` means the fuel ran out with the loop still running. -/
def relinkLoop (hf : Int → Int) : Nat → PState → Option Nat → Option PState
  | 0, _, _ => none
  | fuel + 1, st, prev =>
      match prev with
      | none => some st
      | some id =>
          let s := relinkStep hf st id
          relinkLoop hf fuel s.1 s.2

/-- The outer loop over the old bins (source lines 405-419); the
`delete prev_LN` and `delete [] prev_map` deallocations are no-ops for
the values the model tracks. -/
def relinkBins (hf : Int → Int) (fuel : Nat) : PState → List Nat → Option PState
  | st, [] => some st
  | st, head :: rest =>
      match relinkLoop hf fuel st (some head) with
      | none => none
      | some st' => relinkBins hf fuel st' rest

/-- `ensure_load_threshold` (source lines 382-421): computes
`double ratio = new_used/bins;` — an integer division, converted to
`double` only afterwards — and returns unchanged when
`ratio <= load_threshold`; otherwise doubles `bins`, allocates a fresh
table of trailer nodes, and runs the relinking loops.  `mod_count` is
never touched anywhere in the body. -/
def ensure_load_threshold (hf : Int → Int) (lt : ℚ) (fuel : Nat) (new_used : Nat)
    (st : PState) : Option PState :=
  let ratio : ℚ := ((new_used / st.bins : Nat) : ℚ)
  if ratio ≤ lt then some st
  else
    let newBins := 2 * st.bins
    let trailers := (List.range newBins).map (fun i => st.freshId + i)
    let st1 : PState :=
      { bins := newBins
        table := trailers
        heap := st.heap ++ trailers.map (fun i => (i, ⟨0, 0, none⟩))
        freshId := st.freshId + newBins
        mod_count := st.mod_count }
    relinkBins hf fuel st1 st.table

/-- The identity hash function used for concrete runs. -/
def idHash : Int → Int := fun k => k

/-- The concrete state `ensure_load_threshold` is entered from when a map
with one bin at load threshold 1.0, already holding the entry `1 ↦ 5`
(node 1, whose `next` is the bin-0 trailer, node 0), has just received a
second distinct entry: the call is `ensure_load_threshold(2)`. -/
def pResize : PState :=
  { bins := 1
    table := [1]
    heap := [(0, ⟨0, 0, none⟩), (1, ⟨1, 5, some 0⟩)]
    freshId := 10
    mod_count := 0 }

/-- Well-formedness of a map state, as established by construction and
maintained by the (spec-modelled) commands: at least one bin, the chains
array matching the `bins` member, every stored entry sitting in the bin
its key compresses to under the current bin count, and no key stored
twice.  These are the reachable-state invariants of spec sections 3
and 8. -/
def WF (m : HM) : Prop :=
  1 ≤ m.bins ∧ m.chains.length = m.bins ∧
  (∀ i ∈ List.range m.bins,
    ∀ e ∈ m.chains.getD i [], compressAt m.hash m.bins e.1 = (i : Int)) ∧
  ((allEntries m).map Prod.fst).Nodup

instance decidableWF (m : HM) : Decidable (WF m) := by
  unfold WF
  infer_instance

/-- Successive states of the relinking loop started on `pResize`: after
allocation the new table is `[10, 11]` (two fresh trailers) and the loop
starts at the old bin-0 head, node 1. -/
def pR0 : PState :=
  { bins := 2
    table := [10, 11]
    heap := [(0, ⟨0, 0, none⟩), (1, ⟨1, 5, some 0⟩), (10, ⟨0, 0, none⟩), (11, ⟨0, 0, none⟩)]
    freshId := 12
    mod_count := 0 }

/-- State after the loop relinks node 1 into new bin 1. -/
def pR1 : PState := (relinkStep idHash pR0 1).1

/-- State after the loop then relinks the new bin-1 trailer (node 11,
reached through node 1's overwritten `next`) into new bin 0. -/
def pR2 : PState := (relinkStep idHash pR1 11).1

/-- State after the loop relinks the new bin-0 trailer (node 10) into new
bin 0 again. -/
def pR3 : PState := (relinkStep idHash pR2 10).1

/-- State after the loop revisits node 11: from here the loop alternates
between nodes 11 and 10 forever. -/
def pR4 : PState := (relinkStep idHash pR3 11).1

/-- A two-bin state holding no entries, used to exercise the no-resize
path of `ensure_load_threshold`. -/
def pNoResize : PState :=
  { bins := 2
    table := [0, 1]
    heap := [(0, ⟨0, 0, none⟩), (1, ⟨0, 0, none⟩)]
    freshId := 2
    mod_count := 0 }

/-- A well-formed one-bin map storing the single entry `0 ↦ 9`, whose key
equals the default-constructed KEY stored in every trailer node. -/
def mDefKey : HM := ⟨fun k => k, 1, 1, [[(0, 9)]], 1, 1⟩

/-- A three-bin map whose hash function returns `INT_MIN` — a legal
`int`-valued hash output — for every key. -/
def mBadHash : HM := ⟨fun _ => INTMIN, 1, 3, [[], [], []], 0, 0⟩

/-- A well-formed three-bin map with identity hash and no entries. -/
def mThreeBins : HM := ⟨fun k => k, 1, 3, [[], [], []], 0, 0⟩

/-- A well-formed one-bin map holding the single entry `1 ↦ 5`. -/
def mOneEntry : HM := ⟨fun k => k, 1, 1, [[(1, 5)]], 1, 1⟩

/-
Helper lemmas (shared across the claim theorems below).
-/

theorem list_getD_set_eq {α : Type} (l : List α) (i : Nat) (x d : α) (h : i < l.length) :
    (l.set i x).getD i d = x := by
  induction l generalizing i with
  | nil => simp at h
  | cons a t ih =>
    cases i with
    | zero => rfl
    | succ j => simpa using ih j (by simpa using h)

theorem list_getD_set_ne {α : Type} (l : List α) (i j : Nat) (x d : α) (h : i ≠ j) :
    (l.set i x).getD j d = l.getD j d := by
  induction l generalizing i j with
  | nil => simp
  | cons a t ih =>
    cases i with
    | zero =>
      cases j with
      | zero => exact absurd rfl h
      | succ j2 => simp
    | succ i2 =>
      cases j with
      | zero => simp
      | succ j2 => simpa using ih i2 j2 (by omega)

theorem range_map_getD {β : Type} (f : Nat → β) (n j : Nat) (d : β) (h : j < n) :
    ((List.range n).map f).getD j d = f j := by
  rw [List.getD_eq_getElem?_getD, List.getElem?_map, List.getElem?_range h]
  rfl

theorem flatten_set_subset {α : Type} (L : List (List α)) (i : Nat) (x : List α) (a : α)
    (h : a ∈ (L.set i x).flatten) : a ∈ x ∨ a ∈ L.flatten := by
  obtain ⟨c, hc, hac⟩ := List.mem_flatten.1 h
  rcases List.mem_or_eq_of_mem_set hc with h1 | h2
  · exact .inr (List.mem_flatten.2 ⟨c, h1, hac⟩)
  · exact .inl (h2 ▸ hac)

theorem scanChain_of_find?_some {c : List (Int × Int)} {k : Int} {e : Int × Int}
    (h : c.find? (fun x => x.1 = k) = some e) : scanChain c k = some e := by
  simp [scanChain, List.find?_append, h]

theorem scanChain_eq_none {c : List (Int × Int)} {k : Int}
    (h : ∀ e ∈ c, e.1 ≠ k) (hk : k ≠ 0) : scanChain c k = none := by
  rw [scanChain, List.find?_eq_none]
  intro x hx
  rcases List.mem_append.1 hx with h1 | h2
  · simpa using h x h1
  · have : x = ((0 : Int), (0 : Int)) := by simpa using h2
    subst this
    simpa using fun he => hk he.symm

theorem find?_key_unique {c : List (Int × Int)} {k : Int} {e : Int × Int}
    (he : e ∈ c) (hek : e.1 = k) (huniq : ∀ x ∈ c, x.1 = k → x = e) :
    c.find? (fun x => x.1 = k) = some e := by
  cases hf : c.find? (fun x => x.1 = k) with
  | none => exact absurd hek (by simpa using List.find?_eq_none.1 hf e he)
  | some x =>
    have hx : x.1 = k := by simpa using List.find?_some hf
    exact congrArg some (huniq x (List.mem_of_find?_eq_some hf) hx)

theorem replaceVal_find? {c : List (Int × Int)} {k : Int} {e : Int × Int} (v : Int)
    (h : c.find? (fun x => x.1 = k) = some e) :
    (replaceVal c k v).find? (fun x => x.1 = k) = some (k, v) := by
  induction c with
  | nil => simp at h
  | cons a t ih =>
    by_cases ha : a.1 = k
    · simp [replaceVal, ha]
    · have h2 : t.find? (fun x => x.1 = k) = some e := by
        simpa [List.find?_cons_of_neg, ha] using h
      simpa [replaceVal, List.find?_cons_of_neg, ha] using ih h2

theorem compressAt_bounds (hf : Int → Int) (bins : Nat) (k : Int)
    (hb : 1 ≤ bins) (hk : hf k ≠ INTMIN) :
    0 ≤ compressAt hf bins k ∧ compressAt hf bins k < (bins : Int) := by
  unfold compressAt absC
  rw [if_neg hk]
  constructor
  · exact Int.tmod_nonneg _ (Int.natCast_nonneg _)
  · exact Int.tmod_lt_of_pos _ (by exact_mod_cast hb)

theorem wf_key_unique {m : HM} (hwf : WF m) {e1 e2 : Int × Int}
    (h1 : e1 ∈ allEntries m) (h2 : e2 ∈ allEntries m) (hk : e1.1 = e2.1) : e1 = e2 :=
  List.inj_on_of_nodup_map hwf.2.2.2 h1 h2 hk

theorem wf_mem_bin {m : HM} (hwf : WF m) {e : Int × Int} (he : e ∈ allEntries m) :
    compressAt m.hash m.bins e.1 =
      (((compressAt m.hash m.bins e.1).toNat : Nat) : Int) ∧
    (compressAt m.hash m.bins e.1).toNat < m.bins ∧
    e ∈ m.chains.getD (compressAt m.hash m.bins e.1).toNat [] := by
  obtain ⟨hb, hlen, hloc, hnd⟩ := hwf
  obtain ⟨c, hcmem, hec⟩ := List.mem_flatten.1 he
  obtain ⟨i, hilen, hci⟩ := List.mem_iff_getElem.1 hcmem
  have hib : i < m.bins := hlen ▸ hilen
  have hgetD : m.chains.getD i [] = c := by
    rw [List.getD_eq_getElem?_getD, List.getElem?_eq_getElem hilen, hci]
    rfl
  have hcomp : compressAt m.hash m.bins e.1 = (i : Int) :=
    hloc i (List.mem_range.2 hib) e (by rw [hgetD]; exact hec)
  rw [hcomp]
  have htn : ((i : Int)).toNat = i := by simp
  refine ⟨by simp, by simpa using hib, ?_⟩
  rw [htn, hgetD]
  exact hec

/-
Claim theorems.
-/

theorem getD_mem_or_nil {α : Type} (l : List (List α)) (i : Nat) :
    l.getD i [] ∈ l ∨ l.getD i [] = [] := by
  rw [List.getD_eq_getElem?_getD]
  cases h : l[i]? with
  | none => right; rfl
  | some c => left; simpa using List.getElem?_mem h

theorem find_key_eval (m : HM) (k : Int) (r : Option (Int × Int))
    (h0 : 0 ≤ hash_compress m k) (h1 : hash_compress m k < (m.bins : Int))
    (hscan : scanChain (m.chains.getD (hash_compress m k).toNat []) k = r) :
    find_key m (hash_compress m k) k = r := by
  unfold find_key
  rw [if_pos ⟨h0, h1⟩]
  exact hscan

theorem scanChain_some_of_ne_zero {c : List (Int × Int)} {k : Int} {e : Int × Int}
    (hk0 : k ≠ 0) (h : scanChain c k = some e) :
    c.find? (fun x => x.1 = k) = some e := by
  rw [scanChain, List.find?_append] at h
  cases hf : c.find? (fun x => x.1 = k) with
  | some x =>
    rw [hf] at h
    simpa using h
  | none =>
    exfalso
    rw [hf] at h
    simp [show ¬ ((0 : Int) = k) from fun hh => hk0 hh.symm] at h

/-- C10: on a freshly constructed, empty map, `has_key` returns true for a
default-constructed KEY (here `0`) and `has_value` returns true for a
default-constructed T (here `0`), because every bin ends in a
default-constructed trailer node and both the `find_key` scan and the
`has_value` scan include that trailer in their comparisons. -/
theorem claim_C10_fresh_map_matches_default (hf : Int → Int) (lt : ℚ) :
    has_key (mkDefault hf lt) 0 = true ∧ has_value (mkDefault hf lt) 0 = true := by
  have h0 : hash_compress (mkDefault hf lt) 0 = 0 := by
    simp [hash_compress, compressAt, mkDefault]
  constructor
  · simp only [has_key, h0]
    rfl
  · rfl

/-- C5: construction fails with `TemplateFunctionError` when neither a
template-level (`thash`) nor a constructor-supplied (`chash`) hash
function is given, and also fails when both are given and differ; in
every other case construction succeeds and stores the unique resolved
hash function. -/
theorem claim_C5_ctor_hash_validation (th ch : Option Nat) (lt : ℚ) :
    (th = none → ch = none →
      hmInit th ch lt =
        .error (.templateFunctionError "HashMap::default constructor nothing specified")) ∧
    (∀ a b, th = some a → ch = some b → a ≠ b →
      hmInit th ch lt =
        .error (.templateFunctionError "HashMap::default constructor both specified and different")) ∧
    (∀ a, th = some a → (ch = none ∨ ch = some a) →
      hmInit th ch lt = .ok ⟨a, lt, 1, [[]]⟩) ∧
    (∀ b, th = none → ch = some b →
      hmInit th ch lt = .ok ⟨b, lt, 1, [[]]⟩) := by
  refine ⟨?_, ?_, ?_, ?_⟩
  · rintro rfl rfl
    rfl
  · rintro a b rfl rfl hab
    simp [hmInit, Option.isSome]
    exact fun h => absurd h hab
  · rintro a rfl hch
    rcases hch with rfl | rfl
    · rfl
    · simp [hmInit, Option.isSome]
  · rintro b rfl rfl
    rfl

/-- Witness for C5 at concrete inputs: both-and-different fails, both-equal
succeeds storing the function, instance-only succeeds storing it, and
neither fails. -/
theorem claim_C5_ctor_hash_validation_witness :
    hmInit (some 3) (some 5) 2 =
      .error (.templateFunctionError "HashMap::default constructor both specified and different") ∧
    hmInit (some 3) (some 3) 2 = .ok ⟨3, 2, 1, [[]]⟩ ∧
    hmInit none (some 4) 2 = .ok ⟨4, 2, 1, [[]]⟩ ∧
    hmInit none none 2 =
      .error (.templateFunctionError "HashMap::default constructor nothing specified") :=
  ⟨(claim_C5_ctor_hash_validation (some 3) (some 5) 2).2.1 3 5 rfl rfl (by decide),
   (claim_C5_ctor_hash_validation (some 3) (some 3) 2).2.2.1 3 rfl (Or.inr rfl),
   (claim_C5_ctor_hash_validation none (some 4) 2).2.2.2 4 rfl rfl,
   (claim_C5_ctor_hash_validation none none 2).1 rfl rfl⟩

/-- C4 counterexample: with a (legal) hash function returning `INT_MIN`
and three bins, the compression `abs(hash(key)) % bins` yields `-2`,
which does not lie in `[0, bins)`: `abs` overflows at `INT_MIN` and the
truncated `%` of the negative result is negative. -/
theorem claim_C4_counterexample :
    hash_compress mBadHash 0 = -2 ∧
    ¬ (0 ≤ hash_compress mBadHash 0 ∧ hash_compress mBadHash 0 < (mBadHash.bins : Int)) := by
  decide

/-- C4 amended: for every key whose hash value is not `INT_MIN` (the one
`int` whose absolute value overflows), the compression step computes
`abs(hash(key)) % bins`, and on every map state with `bins ≥ 1` the
result lies in `[0, bins)`. -/
theorem claim_C4_compression_in_range (m : HM) (k : Int)
    (hb : 1 ≤ m.bins) (hk : m.hash k ≠ INTMIN) :
    hash_compress m k = (absC (m.hash k)).tmod (m.bins : Int) ∧
    0 ≤ hash_compress m k ∧ hash_compress m k < (m.bins : Int) :=
  ⟨rfl, compressAt_bounds m.hash m.bins k hb hk⟩

/-- Witness for C4 at a concrete input: identity hash, three bins,
key `-7`; the index is in range. -/
theorem claim_C4_compression_in_range_witness :
    hash_compress mThreeBins (-7) = (absC (mThreeBins.hash (-7))).tmod (mThreeBins.bins : Int) ∧
    0 ≤ hash_compress mThreeBins (-7) ∧
    hash_compress mThreeBins (-7) < (mThreeBins.bins : Int) :=
  claim_C4_compression_in_range mThreeBins (-7) (by decide) (by decide)

/-- C6: the `initial_bins` constructor, called with `initial_bins = 4`,
allocates four trailer-only bins but leaves the `bins` member at its
declared default of 1 — the body never assigns `bins = initial_bins`, so
subsequent bucket-index computations are taken modulo 1, not modulo 4.
This theorem evaluates the constructor at the failing input. -/
theorem claim_C6_initial_bins_not_stored :
    hmInitBins 4 (some 7) none 1 = .ok ⟨7, 1, 1, [[], [], [], []]⟩ := by
  decide

/-- C3: `ensure_load_threshold` computes the ratio `new_used/bins` with
integer division (contrary to the body's own comment "compute it with
doubles").  At the failing input `new_used = 3, bins = 2,
load_threshold = 1.0`, the code computes `3/2 = 1`, concludes
`1.0 ≤ 1.0`, and does not resize — although the true ratio `1.5` exceeds
the threshold, so the claimed floating-point comparison would resize. -/
theorem claim_C3_integer_division_ratio :
    ensure_load_threshold idHash 1 5 3 pNoResize = some pNoResize ∧
    (1 : ℚ) < (3 : ℚ) / 2 :=
  ⟨by decide, by norm_num⟩

/-- C9: an iterator captures the map's `mod_count` at creation; if the map
is then structurally mutated not through that iterator, so that its
`mod_count` differs from the captured snapshot, the next `advance` or
`erase_current` on the stale iterator fails with
`ConcurrentModificationError`. -/
theorem claim_C9_iterator_fail_fast (m m2 : HM) (it : Iter)
    (hit : it = mkIter m) (hmod : m2.mod_count ≠ m.mod_count) :
    advanceIter m2 it = .error .concurrentModificationError ∧
    eraseCurrentIter m2 it = .error .concurrentModificationError := by
  subst hit
  have hne : (mkIter m).expected_mod_count ≠ m2.mod_count := by
    simpa [mkIter] using fun h => hmod h.symm
  constructor
  · rw [advanceIter, if_pos hne]
  · rw [eraseCurrentIter, if_pos hne]

/-- Witness for C9: a fresh map's iterator, then a direct `put` of a new
key (which bumps `mod_count` to 1), makes both stale-iterator operations
fail. -/
theorem claim_C9_iterator_fail_fast_witness :
    advanceIter ((put (mkDefault idHash 1) 1 5).2) (mkIter (mkDefault idHash 1)) =
      .error .concurrentModificationError ∧
    eraseCurrentIter ((put (mkDefault idHash 1) 1 5).2) (mkIter (mkDefault idHash 1)) =
      .error .concurrentModificationError :=
  claim_C9_iterator_fail_fast (mkDefault idHash 1) ((put (mkDefault idHash 1) 1 5).2)
    (mkIter (mkDefault idHash 1)) rfl (by decide)

/-- C8: `erase` of a key absent from the map — in particular of any key on
a map with no entries — fails with a `NotFoundError` identifying the
missing key, and `erase` of a present key returns the value that was
associated with it. -/
theorem claim_C8_erase_contract (m : HM) (k : Int) :
    ((∀ c ∈ m.chains, ∀ e ∈ c, e.1 ≠ k) → erase m k = .error (.notFoundError k)) ∧
    (∀ v, (m.chains.getD (bucketIdx m k) []).find? (fun e => e.1 = k) = some (k, v) →
      ∃ m2, erase m k = .ok (v, m2)) := by
  constructor
  · intro habs
    have hnone : (m.chains.getD (bucketIdx m k) []).find? (fun e => e.1 = k) = none := by
      rw [List.find?_eq_none]
      intro x hx
      rcases getD_mem_or_nil m.chains (bucketIdx m k) with hmem | hnil
      · simpa using habs _ hmem x hx
      · rw [hnil] at hx
        simp at hx
    simp only [erase, hnone]
  · intro v hfind
    refine ⟨{ m with
        chains := m.chains.set (bucketIdx m k)
          ((m.chains.getD (bucketIdx m k) []).filter (fun e2 => ¬ e2.1 = k))
        used := m.used - 1
        mod_count := m.mod_count + 1 }, ?_⟩
    simp only [erase, hfind]

/-- Witness for C8: on a fresh empty map, erasing key 7 fails with
`NotFoundError 7`; on a map holding `1 ↦ 5`, erasing key 1 returns 5. -/
theorem claim_C8_erase_contract_witness :
    erase (mkDefault idHash 1) 7 = .error (.notFoundError 7) ∧
    ∃ m2, erase mOneEntry 1 = .ok (5, m2) :=
  ⟨(claim_C8_erase_contract (mkDefault idHash 1) 7).1 (by decide),
   (claim_C8_erase_contract mOneEntry 1).2 5 (by decide)⟩

/-- C2 counterexample: on a well-formed map holding the entry `0 ↦ 9`
(key 0 is the default-constructed KEY), `has_key 0` is true and `erase 0`
succeeds removing the entry — yet `has_key 0` still returns true
afterwards, because `find_key`'s scan also matches the bin's
default-constructed trailer node.  The claim demands `false` here. -/
theorem claim_C2_counterexample :
    has_key mDefKey 0 = true ∧
    (erase mDefKey 0).toOption.map (fun p => has_key p.2 0) = some true := by
  constructor
  · decide
  · rfl

/-- C2 amended: on any map state satisfying the documented reachable-state
invariants, for every key k whose hash is not `INT_MIN` (so the computed
bucket index is valid) and every value v, `put(k, v)` followed by
`has_key(k)` returns true and looking up k returns v; and for every key k
present in the map that is not the default-constructed KEY (whose trailer
node `has_key` always matches), `erase(k)` followed by `has_key(k)`
returns false. -/
theorem claim_C2_round_trip (m : HM) (k v : Int)
    (hwf : WF m) (hk : m.hash k ≠ INTMIN) :
    (has_key ((put m k v).2) k = true ∧
     (find_key ((put m k v).2) (hash_compress ((put m k v).2) k) k).map Prod.snd = some v) ∧
    (k ≠ 0 → has_key m k = true →
      ∃ w m2, erase m k = .ok (w, m2) ∧ has_key m2 k = false) := by
  obtain ⟨hb, hlen, hloc, hnd⟩ := hwf
  have hcb := compressAt_bounds m.hash m.bins k hb hk
  have hiv : ((bucketIdx m k : Nat) : Int) = compressAt m.hash m.bins k :=
    Int.toNat_of_nonneg hcb.1
  have hib : bucketIdx m k < m.bins := by
    have h2 : ((bucketIdx m k : Nat) : Int) < (m.bins : Int) := by
      rw [hiv]
      exact hcb.2
    exact_mod_cast h2
  have hilen : bucketIdx m k < m.chains.length := by
    rw [hlen]
    exact hib
  constructor
  · -- put part
    cases hfind : (m.chains.getD (bucketIdx m k) []).find? (fun e => e.1 = k) with
    | some e =>
      have hput : (put m k v).2 = putReplaced m k v := by
        simp only [put, putReplaced, hfind]
      rw [hput]
      have hscan : scanChain
          ((putReplaced m k v).chains.getD ((hash_compress (putReplaced m k v) k)).toNat []) k =
          some (k, v) := by
        show scanChain ((m.chains.set (bucketIdx m k)
            (replaceVal (m.chains.getD (bucketIdx m k) []) k v)).getD (bucketIdx m k) []) k =
          some (k, v)
        rw [list_getD_set_eq _ _ _ _ hilen]
        exact scanChain_of_find?_some (replaceVal_find? v hfind)
      have hfk : find_key (putReplaced m k v) (hash_compress (putReplaced m k v) k) k =
          some (k, v) :=
        find_key_eval _ k (some (k, v)) hcb.1 hcb.2 hscan
      constructor
      · unfold has_key
        rw [hfk]
        rfl
      · rw [hfk]
        rfl
    | none =>
      have hput : (put m k v).2 = rehasherSpec (putInserted m k v) := by
        simp only [put, putInserted, hfind]
      rw [hput]
      cases htrig : ratioExceeds (putInserted m k v).used (putInserted m k v).bins
          (putInserted m k v).load_threshold with
      | false =>
        have hrw : rehasherSpec (putInserted m k v) = putInserted m k v := by
          unfold rehasherSpec
          simp [htrig]
        rw [hrw]
        have hscan : scanChain
            ((putInserted m k v).chains.getD
              ((hash_compress (putInserted m k v) k)).toNat []) k = some (k, v) := by
          show scanChain ((m.chains.set (bucketIdx m k)
              ((k, v) :: m.chains.getD (bucketIdx m k) [])).getD (bucketIdx m k) []) k =
            some (k, v)
          rw [list_getD_set_eq _ _ _ _ hilen]
          exact scanChain_of_find?_some (by simp)
        have hfk : find_key (putInserted m k v) (hash_compress (putInserted m k v) k) k =
            some (k, v) :=
          find_key_eval _ k (some (k, v)) hcb.1 hcb.2 hscan
        constructor
        · unfold has_key
          rw [hfk]
          rfl
        · rw [hfk]
          rfl
      | true =>
        have hrw : rehasherSpec (putInserted m k v) = rehashed (putInserted m k v) := by
          unfold rehasherSpec rehashed
          simp [htrig]
        rw [hrw]
        have hcb2 := compressAt_bounds m.hash (2 * m.bins) k (by omega) hk
        have hiv2 : (((compressAt m.hash (2 * m.bins) k).toNat : Nat) : Int) =
            compressAt m.hash (2 * m.bins) k := Int.toNat_of_nonneg hcb2.1
        have hib2 : (compressAt m.hash (2 * m.bins) k).toNat < 2 * m.bins := by
          have h2 : (((compressAt m.hash (2 * m.bins) k).toNat : Nat) : Int) <
              ((2 * m.bins : Nat) : Int) := by
            rw [hiv2]
            exact_mod_cast hcb2.2
          exact_mod_cast h2
        have hmem1 : (k, v) ∈ allEntries (putInserted m k v) :=
          List.mem_flatten.2 ⟨(k, v) :: m.chains.getD (bucketIdx m k) [],
            List.mem_set m.chains (bucketIdx m k) hilen _, List.mem_cons_self _ _⟩
        have hmemf : (k, v) ∈ (allEntries (putInserted m k v)).filter
            (fun e => compressAt m.hash (2 * m.bins) e.1 =
              (((compressAt m.hash (2 * m.bins) k).toNat : Nat) : Int)) := by
          rw [List.mem_filter]
          exact ⟨hmem1, by simpa using hiv2.symm⟩
        have huniq : ∀ x ∈ (allEntries (putInserted m k v)).filter
            (fun e => compressAt m.hash (2 * m.bins) e.1 =
              (((compressAt m.hash (2 * m.bins) k).toNat : Nat) : Int)),
            x.1 = k → x = (k, v) := by
          intro x hx hxk
          have hx1 := (List.mem_filter.1 hx).1
          rcases flatten_set_subset _ _ _ _ hx1 with hxc | hxm
          · rcases List.mem_cons.1 hxc with heq | hxC
            · exact heq
            · exact absurd hxk (by simpa using List.find?_eq_none.1 hfind x hxC)
          · exfalso
            obtain ⟨hcast2, hlt2, hmemx⟩ := wf_mem_bin ⟨hb, hlen, hloc, hnd⟩ hxm
            rw [hxk] at hmemx
            exact absurd hxk (by simpa using List.find?_eq_none.1 hfind x hmemx)
        have hscan : scanChain
            ((rehashed (putInserted m k v)).chains.getD
              ((hash_compress (rehashed (putInserted m k v)) k)).toNat []) k = some (k, v) := by
          show scanChain (((List.range (2 * m.bins)).map
              (fun (j : Nat) => (allEntries (putInserted m k v)).filter
                (fun e => compressAt m.hash (2 * m.bins) e.1 = (j : Int)))).getD
              ((compressAt m.hash (2 * m.bins) k).toNat) []) k = some (k, v)
          rw [range_map_getD _ _ _ _ hib2]
          exact scanChain_of_find?_some (find?_key_unique hmemf rfl huniq)
        have hfk : find_key (rehashed (putInserted m k v))
            (hash_compress (rehashed (putInserted m k v)) k) k = some (k, v) :=
          find_key_eval _ k (some (k, v)) hcb2.1 hcb2.2 hscan
        constructor
        · unfold has_key
          rw [hfk]
          rfl
        · rw [hfk]
          rfl
  · -- erase part
    intro hk0 hhk
    unfold has_key at hhk
    unfold find_key at hhk
    by_cases hcond : 0 ≤ hash_compress m k ∧ hash_compress m k < (m.bins : Int)
    · rw [if_pos hcond] at hhk
      cases hscan : scanChain (m.chains.getD (hash_compress m k).toNat []) k with
      | none =>
        rw [hscan] at hhk
        simp at hhk
      | some e =>
        have hfind2 : (m.chains.getD (bucketIdx m k) []).find? (fun x => x.1 = k) = some e :=
          scanChain_some_of_ne_zero hk0 hscan
        refine ⟨e.2, eraseResult m k, ?_, ?_⟩
        · simp only [erase, eraseResult, hfind2]
        · have hscan2 : scanChain
              ((eraseResult m k).chains.getD ((hash_compress (eraseResult m k) k)).toNat []) k =
              none := by
            show scanChain ((m.chains.set (bucketIdx m k)
                ((m.chains.getD (bucketIdx m k) []).filter
                  (fun e2 => ¬ e2.1 = k))).getD (bucketIdx m k) []) k = none
            rw [list_getD_set_eq _ _ _ _ hilen]
            refine scanChain_eq_none ?_ hk0
            intro x hx
            have hpred := (List.mem_filter.1 hx).2
            simpa using hpred
          have hfk : find_key (eraseResult m k) (hash_compress (eraseResult m k) k) k = none :=
            find_key_eval _ k none hcond.1 hcond.2 hscan2
          unfold has_key
          rw [hfk]
          rfl
    · rw [if_neg hcond] at hhk
      simp at hhk


/-- Witness for C2 on the concrete map holding `1 ↦ 5` with identity
hash: putting `1 ↦ 7` round-trips, and erasing key 1 makes `has_key 1`
false. -/
theorem claim_C2_round_trip_witness :
    (has_key ((put mOneEntry 1 7).2) 1 = true ∧
     (find_key ((put mOneEntry 1 7).2)
       (hash_compress ((put mOneEntry 1 7).2) 1) 1).map Prod.snd = some 7) ∧
    (∃ w m2, erase mOneEntry 1 = .ok (w, m2) ∧ has_key m2 1 = false) :=
  ⟨(claim_C2_round_trip mOneEntry 1 7 (by decide) (by decide)).1,
   (claim_C2_round_trip mOneEntry 1 7 (by decide) (by decide)).2 (by decide) (by decide)⟩

theorem relinkLoop_succ (hf : Int → Int) (n : Nat) (st : PState) (id : Nat) :
    relinkLoop hf (n + 1) st (some id) =
    relinkLoop hf n (relinkStep hf st id).1 (relinkStep hf st id).2 := rfl

theorem relinkStep_snd (hf : Int → Int) (st : PState) (id : Nat) :
    (relinkStep hf st id).2 =
    some (st.table.getD ((compressAt hf st.bins (hGet st.heap id).key).toNat) 0) := rfl

theorem relinkLoop_cycle (n : Nat) :
    relinkLoop idHash n pR3 (some 11) = none ∧ relinkLoop idHash n pR4 (some 10) = none := by
  have hs34 : relinkStep idHash pR3 11 = (pR4, some 10) := by decide
  have hs43 : relinkStep idHash pR4 10 = (pR3, some 11) := by decide
  induction n with
  | zero => exact ⟨rfl, rfl⟩
  | succ k ih =>
    refine ⟨?_, ?_⟩
    · rw [relinkLoop_succ, hs34]
      exact ih.2
    · rw [relinkLoop_succ, hs43]
      exact ih.1

theorem relinkLoop_pR0_none (n : Nat) : relinkLoop idHash n pR0 (some 1) = none := by
  have hs01 : relinkStep idHash pR0 1 = (pR1, some 11) := by decide
  have hs12 : relinkStep idHash pR1 11 = (pR2, some 10) := by decide
  have hs23 : relinkStep idHash pR2 10 = (pR3, some 11) := by decide
  match n with
  | 0 => rfl
  | 1 => decide
  | 2 => decide
  | (k + 3) =>
    calc relinkLoop idHash (k + 3) pR0 (some 1)
        = relinkLoop idHash (k + 2) pR1 (some 11) := by rw [relinkLoop_succ, hs01]
      _ = relinkLoop idHash (k + 1) pR2 (some 10) := by rw [relinkLoop_succ, hs12]
      _ = relinkLoop idHash k pR3 (some 11) := by rw [relinkLoop_succ, hs23]
      _ = none := (relinkLoop_cycle k).1

/-- C1 fails on the code: the relinking loop of `ensure_load_threshold`
never terminates.  Entered from a one-bin map holding `1 ↦ 5` upon
insertion of a second distinct entry (state `pResize`, call
`ensure_load_threshold(2)`), the loop overwrites each visited node's
`next` with the new bin head before reading it as the next cursor, so it
wanders into the new table and thereafter alternates forever between the
two relocated trailer nodes (10 and 11): for every fuel bound the loop is
still running.  A resize therefore never completes, so no entry is ever
again retrievable after a resize-triggering `put`. -/
theorem claim_C1_resize_never_terminates (fuel : Nat) :
    ensure_load_threshold idHash 1 fuel 2 pResize = none := by
  have hloop := relinkLoop_pR0_none fuel
  show relinkBins idHash fuel pR0 [1] = none
  simp only [relinkBins, hloop]

/-- C7 fails on the code: `ensure_load_threshold` contains no `mod_count`
increment at all, and the only executions of it that return are the ones
that resize nothing.  On any state with a populated table (at least one
bin, table matching `bins`), whenever the function returns, the resulting
map has the same `mod_count` and the same `bins` as before — no resize
observable as one (or any) structural change ever completes. -/
theorem claim_C7_resize_mod_count (hf : Int → Int) (lt : ℚ) (fuel new_used : Nat)
    (st r : PState) (hlen : st.table.length = st.bins) (hb : 1 ≤ st.bins)
    (h : ensure_load_threshold hf lt fuel new_used st = some r) :
    r.mod_count = st.mod_count ∧ r.bins = st.bins := by
  unfold ensure_load_threshold at h
  by_cases hc : ((new_used / st.bins : Nat) : ℚ) ≤ lt
  · rw [if_pos hc] at h
    cases h
    exact ⟨rfl, rfl⟩
  · rw [if_neg hc] at h
    obtain ⟨hd, tl, htab⟩ : ∃ hd tl, st.table = hd :: tl := by
      cases htab2 : st.table with
      | nil =>
        rw [htab2] at hlen
        simp at hlen
        omega
      | cons a l => exact ⟨a, l, rfl⟩
    rw [htab] at h
    have hnone : ∀ f s p, relinkLoop hf f s (some p) = none := by
      intro f
      induction f with
      | zero => intro s p; rfl
      | succ g ih =>
        intro s p
        rw [relinkLoop_succ, relinkStep_snd]
        exact ih _ _
    simp only [relinkBins, hnone] at h
    exact Option.noConfusion h

/-- Witness for C7: a call that does return (two bins, one entry counted,
threshold 1.0: ratio `1/2 = 0 ≤ 1`, no resize) leaves `mod_count` and
`bins` unchanged. -/
theorem claim_C7_resize_mod_count_witness :
    ensure_load_threshold idHash 1 3 1 pNoResize = some pNoResize ∧
    pNoResize.mod_count = pNoResize.mod_count ∧ pNoResize.bins = pNoResize.bins :=
  ⟨by decide,
   claim_C7_resize_mod_count idHash 1 3 1 pNoResize pNoResize (by decide) (by decide) (by decide)⟩
